import Mathlib

/-!
Verification of the CSS declaration/value rewriting engine (`css/css.go`).

The engine is embedded shallowly: token byte payloads are `List Char`,
Go float64 arithmetic is modelled by exact unnormalized fractions (`Frac`),
and every writer call is modelled by appending to the produced byte list.
External collaborators that the package imports (the `parse` tokenizer
helpers, the color lookup tables, the numeric formatter of the root
`minify` package) are modelled from the specification and are marked as
such in their doc comments.
-/

set_option linter.unusedVariables false
set_option maxRecDepth 16384

namespace CSSMin

/-- Token kinds of the external tokenizer, restricted to the kinds the
engine dispatches on (`css.TokenType`). -/
inductive TokenType where
  | numberT | percentageT | dimensionT | identT | hashT | stringT | urlT
  | functionT | commaT | whitespaceT | delimT | colonT | semicolonT
  | leftParenthesisT | rightParenthesisT | leftBraceT | rightBraceT
  | leftBracketT | rightBracketT
  deriving DecidableEq, Repr

open TokenType

/-- A flat token of the external tokenizer (`css.Token`): a kind and its
raw byte payload. -/
structure CToken where
  tt : TokenType
  data : List Char
  deriving DecidableEq, Repr

/-- The minifier's value-list token (`Token` in css.go): kind, payload and
the nested component tokens, populated only for function-call tokens. -/
structure Token where
  tt : TokenType
  data : List Char
  components : List CToken
  deriving DecidableEq, Repr

/-- Structural token equality (`Token.Equal` in css.go): same kind, same
bytes, same number of components, and componentwise equal kind/bytes. -/
def tokenEqual (a b : Token) : Bool :=
  a.tt == b.tt && a.data == b.data && a.components.length == b.components.length &&
    (List.zip a.components b.components).all
      (fun p => p.1.tt == p.2.tt && p.1.data == p.2.data)

/-- Lowercase one ASCII character (`parse.ToLower` acts bytewise). -/
def lowerChar (c : Char) : Char :=
  if 'A' ≤ c ∧ c ≤ 'Z' then Char.ofNat (c.toNat + 32) else c

/-- Lowercase a byte payload (`parse.ToLower`); the Go function mutates in
place, which functionally is a map over the bytes. -/
def toLower (s : List Char) : List Char := s.map lowerChar

/-- Exact fraction with explicit (positive, unnormalized) denominator,
modelling the Go float64 values flowing through the color evaluator.
All values produced by the engine are exactly representable, so the
model is the real-number semantics of the source arithmetic. -/
structure Frac where
  num : Int
  den : Int
  deriving DecidableEq, Repr

namespace Frac

def ofInt (n : Int) : Frac := ⟨n, 1⟩

def add (a b : Frac) : Frac := ⟨a.num * b.den + b.num * a.den, a.den * b.den⟩

def sub (a b : Frac) : Frac := ⟨a.num * b.den - b.num * a.den, a.den * b.den⟩

def mul (a b : Frac) : Frac := ⟨a.num * b.num, a.den * b.den⟩

/-- Strict order test, assuming positive denominators. -/
def blt (a b : Frac) : Bool := a.num * b.den < b.num * a.den

/-- Non-strict order test, assuming positive denominators. -/
def ble (a b : Frac) : Bool := a.num * b.den ≤ b.num * a.den

/-- Truncation toward zero, as Go's float-to-integer conversion does. -/
def trunc (a : Frac) : Int := a.num.tdiv a.den

/-- Rational value of a fraction. -/
def q (a : Frac) : ℚ := (a.num : ℚ) / (a.den : ℚ)

/-- Positivity of the denominator: the invariant every fraction built by
the engine satisfies. -/
def pos (a : Frac) : Prop := 0 < a.den

instance (a : Frac) : Decidable a.pos := by unfold pos; infer_instance

end Frac

/-- Go's conversion of a float in `[0,256)` to a `byte`: truncation toward
zero. (Outside that range the Go conversion is implementation-defined;
the engine only reaches it with in-range values on the paths the claims
exercise, and the model truncates and reduces modulo 256.) -/
def goByte (a : Frac) : ℕ := a.trunc.toNat % 256

/-- Property-identity hash of the external parser (`css.Hash`), restricted
to the constructors css.go dispatches on. -/
inductive Hash where
  | zero | important | importH | margin | padding | borderWidth
  | font | fontFamily | fontWeight | outline | border | borderBottom
  | borderLeft | borderRight | borderTop | background | boxShadow
  | msFilter | filter | zIndex | counterIncrement | counterReset
  | orphans | widows | flex | noneH | normal | bold
  | rgb | rgba | hsl | hsla | local
  | white | black | fuchsia | yellow
  | xxSmall | xSmall | small | medium | large | xLarge | xxLarge
  | smaller | larger | inherit | initial | unset
  deriving DecidableEq, Repr

open Hash

/-- Modelled from the spec: the keyword table of the external parser's
`css.ToHash`, restricted to the (lowercase) keywords css.go dispatches
on. -/
def keywordTable : List (List Char × Hash) :=
  [("important".toList, .important), ("import".toList, .importH),
   ("margin".toList, .margin), ("padding".toList, .padding),
   ("border-width".toList, .borderWidth), ("font".toList, .font),
   ("font-family".toList, .fontFamily), ("font-weight".toList, .fontWeight),
   ("outline".toList, .outline), ("border".toList, .border),
   ("border-bottom".toList, .borderBottom), ("border-left".toList, .borderLeft),
   ("border-right".toList, .borderRight), ("border-top".toList, .borderTop),
   ("background".toList, .background), ("box-shadow".toList, .boxShadow),
   ("-ms-filter".toList, .msFilter), ("filter".toList, .filter),
   ("z-index".toList, .zIndex), ("counter-increment".toList, .counterIncrement),
   ("counter-reset".toList, .counterReset), ("orphans".toList, .orphans),
   ("widows".toList, .widows), ("flex".toList, .flex),
   ("none".toList, .noneH), ("normal".toList, .normal), ("bold".toList, .bold),
   ("rgb".toList, .rgb), ("rgba".toList, .rgba), ("hsl".toList, .hsl),
   ("hsla".toList, .hsla), ("local".toList, .local),
   ("white".toList, .white), ("black".toList, .black),
   ("fuchsia".toList, .fuchsia), ("yellow".toList, .yellow),
   ("xx-small".toList, .xxSmall), ("x-small".toList, .xSmall),
   ("small".toList, .small), ("medium".toList, .medium),
   ("large".toList, .large), ("x-large".toList, .xLarge),
   ("xx-large".toList, .xxLarge), ("smaller".toList, .smaller),
   ("larger".toList, .larger), ("inherit".toList, .inherit),
   ("initial".toList, .initial), ("unset".toList, .unset)]

/-- Modelled from the spec: the external parser's `css.ToHash`, which
resolves a byte slice to the closed keyword enumeration by exact byte
match against the keyword table; any other byte slice maps to the zero
hash. -/
def toHash (s : List Char) : Hash :=
  match keywordTable.find? (fun p => p.1 == s) with
  | some p => p.2
  | none => .zero

/-- Modelled from the spec: the process-lifetime color-name-to-hex table
(`ShortenColorName` of the package, defined outside css.go). It maps a
named color's hash to its hex literal whenever the hex form is shorter;
representative entries suffice for the claims. -/
def ShortenColorName (h : Hash) : Option (List Char) :=
  if h = .white then some "#fff".toList
  else if h = .black then some "#000".toList
  else if h = .fuchsia then some "#f0f".toList
  else if h = .yellow then some "#ff0".toList
  else none

/-- Modelled from the spec: the reverse hex-to-color-name table
(`ShortenColorHex` of the package, defined outside css.go). It maps a
6-digit hex literal to a strictly shorter color name; representative
entries suffice for the claims. -/
def ShortenColorHex (s : List Char) : Option (List Char) :=
  if s = "#ff0000".toList then some "red".toList
  else if s = "#000080".toList then some "navy".toList
  else if s = "#008000".toList then some "green".toList
  else if s = "#808080".toList then some "gray".toList
  else if s = "#800080".toList then some "purple".toList
  else if s = "#c0c0c0".toList then some "silver".toList
  else if s = "#ffa500".toList then some "orange".toList
  else if s = "#ffd700".toList then some "gold".toList
  else if s = "#f0ffff".toList then some "azure".toList
  else none

/-- Modelled from the spec: the fixed allow-list of units interchangeable
with bare `0` (`optionalZeroDimension` of the package, defined outside
css.go). -/
def optionalZeroDimension (dim : List Char) : Bool :=
  dim = "px".toList ∨ dim = "mm".toList ∨ dim = "q".toList ∨ dim = "cm".toList ∨
  dim = "in".toList ∨ dim = "pt".toList ∨ dim = "pc".toList ∨ dim = "ch".toList ∨
  dim = "em".toList ∨ dim = "ex".toList ∨ dim = "rem".toList ∨ dim = "vh".toList ∨
  dim = "vw".toList ∨ dim = "vmin".toList ∨ dim = "vmax".toList ∨ dim = "deg".toList ∨
  dim = "grad".toList ∨ dim = "rad".toList ∨ dim = "turn".toList

/-- Modelled from the spec: `minify.Epsilon` of the root package (defined
outside css.go), the implementation-chosen small alpha tolerance, the
float64 constant 0.00001. The exact fraction 1/100000 stands in for the
float64 constant: no float32-parsed value lies between the two (the
nearest float32 is about 2.5e-13 away, the float64 constant within
1e-20), so every comparison css.go makes against it is preserved. -/
def Epsilon : Frac := ⟨1, 100000⟩

/-- Minifier configuration (`Minifier` struct): decimal-precision limit
(−1 meaning unlimited) and the CSS2 legacy-compatibility toggle. -/
structure Opts where
  decimals : Int
  keepCSS2 : Bool
  deriving DecidableEq, Repr

/-- The default configuration (`DefaultMinifier`). -/
def defaultOpts : Opts := ⟨-1, false⟩

end CSSMin

namespace CSSMin

open TokenType Hash

/-- Modelled from the spec: length of the numeric prefix of a byte slice
(`parse.Number` of the external parser): optional sign, digits, an
optional dot-fraction, an optional exponent; zero when no digit occurs. -/
def numberLen (s : List Char) : ℕ :=
  let sl : ℕ := match s with
    | c :: _ => if c = '+' ∨ c = '-' then 1 else 0
    | [] => 0
  let r1 := s.drop sl
  let ds := r1.takeWhile Char.isDigit
  let r2 := r1.drop ds.length
  let fl : ℕ := match r2 with
    | '.' :: r =>
      let fs := r.takeWhile Char.isDigit
      if fs = [] then 0 else 1 + fs.length
    | _ => 0
  let r3 := r2.drop fl
  if ds = [] ∧ fl = 0 then 0
  else
    let el : ℕ := match r3 with
      | e :: r =>
        if e = 'e' ∨ e = 'E' then
          let esl : ℕ := match r with
            | c :: _ => if c = '+' ∨ c = '-' then 1 else 0
            | [] => 0
          let es := (r.drop esl).takeWhile Char.isDigit
          if es = [] then 0 else 1 + esl + es.length
        else 0
      | [] => 0
    sl + ds.length + fl + el

/-- Numeric value of a digit run. -/
def digitsVal (s : List Char) : ℕ := s.foldl (fun a c => a * 10 + (c.toNat - 48)) 0

/-- Modelled from the spec: the numeric-formatting helper of the root
minify package (`minify.Number`/`minify.Decimal`, defined outside
css.go): render a plain decimal literal in its shortest equivalent form.
The model strips the sign of zero, leading integer zeros, trailing
fraction zeros, an empty fraction dot and a zero integer part before a
fraction. Scientific-notation generation and the positive
decimal-place limit are not exercised by any claim and are left out;
inputs already carrying an exponent are returned unchanged. -/
def minifyNumber (data : List Char) : List Char :=
  if data.any (fun c => c = 'e' ∨ c = 'E') then data
  else
    let sign : Bool := data.head? = some '-'
    let rest := if data.head? = some '-' ∨ data.head? = some '+' then data.drop 1 else data
    let ip := rest.takeWhile Char.isDigit
    let r2 := rest.drop ip.length
    let fp : List Char := match r2 with
      | '.' :: r => r.takeWhile Char.isDigit
      | _ => []
    let ipt := ip.dropWhile (fun c => c = '0')
    let fpt := (fp.reverse.dropWhile (fun c => c = '0')).reverse
    if ipt = [] ∧ fpt = [] then ['0']
    else
      let core := if fpt = [] then ipt else ipt ++ '.' :: fpt
      if sign then '-' :: core else core

/-- Well-formedness of a byte slice as a full Go float literal
(plain decimal or exponent form, at least one mantissa digit). -/
def floatSyntaxOK (s : List Char) : Bool :=
  let rest := if s.head? = some '-' ∨ s.head? = some '+' then s.drop 1 else s
  let ip := rest.takeWhile Char.isDigit
  let r2 := rest.drop ip.length
  let (fp, r3) : List Char × List Char := match r2 with
    | '.' :: r => (r.takeWhile Char.isDigit, r.drop (r.takeWhile Char.isDigit).length)
    | _ => ([], r2)
  if ip = [] ∧ fp = [] then false
  else
    match r3 with
    | [] => true
    | e :: r =>
      if e = 'e' ∨ e = 'E' then
        let r4 := if r.head? = some '-' ∨ r.head? = some '+' then r.drop 1 else r
        let es := r4.takeWhile Char.isDigit
        es ≠ [] ∧ r4.drop es.length = []
      else false

/-- Whether the positive rational n/d is at least 2 to the power t. -/
def geTwoPow (n d : ℕ) (t : ℤ) : Bool :=
  if 0 ≤ t then d * 2 ^ t.toNat ≤ n else d ≤ n * 2 ^ (-t).toNat

/-- Upward scan computing the floor of the base-2 logarithm of n/d from a
starting exponent known to be a lower bound. -/
def floorLog2Aux (n d : ℕ) : ℕ → ℤ → ℤ
  | 0, e => e
  | fuel + 1, e => if geTwoPow n d (e + 1) then floorLog2Aux n d fuel (e + 1) else e

/-- Floor of the base-2 logarithm of n/d, for n/d inside the float32
window from 2 to the −126 up to (excluding) 2 to the 128. -/
def floorLog2 (n d : ℕ) : ℤ := floorLog2Aux n d 254 (-126)

/-- Round the non-negative rational n/d to the nearest integer, ties to
even (d positive). -/
def roundHalfEven (n d : ℕ) : ℕ :=
  let quot := n / d
  let rem := n % d
  if 2 * rem < d then quot
  else if 2 * rem > d then quot + 1
  else if quot % 2 = 0 then quot else quot + 1

/-- Modelled from the spec: IEEE-754 binary32 rounding of the rational
value with magnitude n/d (d positive) and the given sign, as
`strconv.ParseFloat(s, 32)` performs it: round to nearest, ties to
even, with gradual underflow below 2 to the −126; an over-range
magnitude returns a sentinel far beyond the float32 range, standing for
the infinity Go returns together with the (ignored) range error. -/
def roundFloat32 (sign : Bool) (n d : ℕ) : Frac :=
  if n = 0 then ⟨0, 1⟩
  else if geTwoPow n d 128 then ⟨(if sign then -1 else 1) * 2 ^ 200, 1⟩
  else
    let qe : ℤ := if geTwoPow n d (-126) then floorLog2 n d - 23 else -149
    let k : ℕ :=
      if 0 ≤ qe then roundHalfEven n (d * 2 ^ qe.toNat)
      else roundHalfEven (n * 2 ^ (-qe).toNat) d
    if 0 ≤ qe ∧ 2 ^ 128 ≤ k * 2 ^ qe.toNat then
      ⟨(if sign then -1 else 1) * 2 ^ 200, 1⟩
    else
      let mag : Frac :=
        if 0 ≤ qe then ⟨(k : ℤ) * 2 ^ qe.toNat, 1⟩ else ⟨(k : ℤ), 2 ^ (-qe).toNat⟩
      if sign then ⟨-mag.num, mag.den⟩ else mag

/-- Modelled from the spec: Go's `strconv.ParseFloat(s, 32)` as css.go
uses it, with the error ignored: a well-formed literal parses to the
nearest float32 value (ties to even), an over-range literal to the
infinity sentinel, and any other byte slice yields 0. The float64
operations css.go applies to the parsed value afterwards — comparisons
against constants, multiplication by 255 and by integer channel bytes,
and adding one half — are exact at these magnitudes (the intermediate
significands stay well within float64's 53 bits), so the exact fraction
arithmetic downstream models them faithfully. -/
def parseFloatGo (s : List Char) : Frac :=
  if floatSyntaxOK s then
    let sign : Bool := s.head? = some '-'
    let rest := if s.head? = some '-' ∨ s.head? = some '+' then s.drop 1 else s
    let ip := rest.takeWhile Char.isDigit
    let r2 := rest.drop ip.length
    let (fp, r3) : List Char × List Char := match r2 with
      | '.' :: r => (r.takeWhile Char.isDigit, r.drop (r.takeWhile Char.isDigit).length)
      | _ => ([], r2)
    let mant : ℕ := digitsVal (ip ++ fp)
    let mantDen : ℕ := 10 ^ fp.length
    match r3 with
    | [] => roundFloat32 sign mant mantDen
    | _ :: r =>
      let esign : Bool := r.head? = some '-'
      let r4 := if r.head? = some '-' ∨ r.head? = some '+' then r.drop 1 else r
      let e := digitsVal (r4.takeWhile Char.isDigit)
      if esign then roundFloat32 sign mant (mantDen * 10 ^ e)
      else roundFloat32 sign (mant * 10 ^ e) mantDen
  else ⟨0, 1⟩

/-- Modelled from the spec: Go's `strconv.ParseInt(s, 10, 32)` as css.go
uses it, with the error ignored: a well-formed integer literal parses
to its value clamped to the int32 range, anything else yields 0. -/
def parseIntGo (s : List Char) : Int :=
  let rest := if s.head? = some '-' ∨ s.head? = some '+' then s.drop 1 else s
  if rest ≠ [] ∧ rest.all Char.isDigit then
    let v : Int := (if s.head? = some '-' then -1 else 1) * (digitsVal rest : Int)
    if v > 2147483647 then 2147483647
    else if v < -2147483648 then -2147483648
    else v
  else 0

/-- Removal of backslash-newline line continuations inside a quoted
payload (`removeStringNewlinex` in css.go): the first continuation is
searched from byte 1 up to (excluding) the last two bytes; from there
the remainder is compacted, dropping each backslash-LF, backslash-CR
and backslash-CR-LF pair. -/
def removeContTail : List Char → List Char
  | [] => []
  | '\\' :: '\r' :: '\n' :: rest => removeContTail rest
  | '\\' :: '\r' :: rest => removeContTail rest
  | '\\' :: '\n' :: rest => removeContTail rest
  | c :: rest => c :: removeContTail rest

/-- Whether a backslash-newline continuation starts at index `i`. -/
def isContAt (data : List Char) (i : ℕ) : Bool :=
  data.get? i = some '\\' ∧
    (data.get? (i + 1) = some '\n' ∨ data.get? (i + 1) = some '\r')

/-- The outer scan and compaction of `removeStringNewlinex` in css.go. -/
def removeStringNewlinex (data : List Char) : List Char :=
  match (List.range data.length).find?
      (fun i => 1 ≤ i ∧ i < data.length - 2 ∧ isContAt data i) with
  | some i => data.take i ++ removeContTail (data.drop i)
  | none => data

/-- Modelled from the spec: the external identifier-grammar predicate
(`css.IsIdent`): a non-empty run of identifier characters not starting
with a digit; escape sequences are not modelled (no claim uses them). -/
def isIdentChar (c : Char) : Bool :=
  c.isAlpha ∨ c.isDigit ∨ c = '-' ∨ c = '_' ∨ c.toNat ≥ 128

def isIdent (s : List Char) : Bool :=
  match s with
  | [] => false
  | c :: _ => (c.isAlpha ∨ c = '_' ∨ c.toNat ≥ 128) ∧ s.all isIdentChar

/-- Modelled from the spec: the external bare-URL-token predicate
(`css.IsURLUnquoted`): content valid inside `url(...)` without quotes. -/
def isURLUnquoted (s : List Char) : Bool :=
  s ≠ [] ∧ s.all (fun c =>
    ¬(c = '"' ∨ c = Char.ofNat 39 ∨ c = '(' ∨ c = ')' ∨ c = Char.ofNat 92 ∨
      c = ' ' ∨ c = '\t' ∨ c = '\n' ∨ c = '\r' ∨ c.toNat < 32))

/-- Modelled from the spec: the external data-URI re-encoder
(`minify.DataURI` of the root package), treated as an opaque pass-through;
no claim depends on its behavior. -/
def dataURI (uri : List Char) : List Char := uri

/-- CSS whitespace bytes. -/
def isWS (c : Char) : Bool :=
  c = ' ' ∨ c = '\t' ∨ c = '\n' ∨ c = '\r' ∨ c = Char.ofNat 12

/-- Modelled from the spec: `parse.TrimWhitespace` of the external parser:
drop leading and trailing whitespace bytes. -/
def trimWhitespaceModel (s : List Char) : List Char :=
  ((s.dropWhile isWS).reverse.dropWhile isWS).reverse

/-- Modelled from the spec: `parse.ReplaceMultipleWhitespace` of the
external parser: collapse every run of whitespace bytes to one space. -/
def replaceMultipleWhitespaceAux : List Char → Bool → List Char
  | [], _ => []
  | c :: rest, inWS =>
    if isWS c then
      if inWS then replaceMultipleWhitespaceAux rest true
      else ' ' :: replaceMultipleWhitespaceAux rest true
    else c :: replaceMultipleWhitespaceAux rest false

def replaceMultipleWhitespace (s : List Char) : List Char :=
  replaceMultipleWhitespaceAux s false

/-- The integer properties exempted from numeric reformatting. -/
def isIntegerProp (prop : Hash) : Bool :=
  prop = .zIndex ∨ prop = .counterIncrement ∨ prop = .counterReset ∨
  prop = .orphans ∨ prop = .widows

/-- The hash-color steps of `shortenToken` after the in-place lowercase:
redundant-alpha collapse, reverse color-name lookup, double-nibble pair
collapse. -/
def shortenHash (data : List Char) : TokenType × List Char :=
  let data :=
    if data.length = 9 ∧ data.get? 7 = data.get? 8 then
      if data.get? 7 = some 'f' then data.take 7
      else if data.get? 7 = some '0' then "#0000".toList
      else data
    else data
  match ShortenColorHex data with
  | some ident => (identT, ident)
  | none =>
    if data.length = 7 ∧ data.get? 1 = data.get? 2 ∧ data.get? 3 = data.get? 4 ∧
        data.get? 5 = data.get? 6 then
      (hashT, data.take 2 ++ [data.getD 3 ' ', data.getD 5 ' '])
    else if data.length = 9 ∧ data.get? 1 = data.get? 2 ∧ data.get? 3 = data.get? 4 ∧
        data.get? 5 = data.get? 6 ∧ data.get? 7 = data.get? 8 then
      (hashT, data.take 2 ++ [data.getD 3 ' ', data.getD 5 ' ', data.getD 7 ' '])
    else (hashT, data)

/-- Per-token canonicalization (`shortenToken` in css.go). Returns the
possibly updated kind and bytes. -/
def shortenToken (o : Opts) (prop : Hash) (tt : TokenType) (data : List Char) :
    TokenType × List Char :=
  if tt = numberT ∨ tt = percentageT ∨ tt = dimensionT then
    if tt = numberT ∧ isIntegerProp prop then (tt, data)
    else
      let n : ℕ :=
        if tt = percentageT then data.length - 1
        else if tt = dimensionT then numberLen data
        else data.length
      let dim := toLower (data.drop n)
      -- KeepCSS2 selects minify.Decimal over minify.Number (no exponents);
      -- the model of the external formatter covers both on plain decimals
      let num := minifyNumber (data.take n)
      if tt = dimensionT ∧
          (num.length ≠ 1 ∨ num.head? ≠ some '0' ∨ ¬optionalZeroDimension dim ∨
            prop = .flex) then
        (tt, num ++ dim)
      else if tt = percentageT then (tt, num ++ ['%'])
      else (tt, num)
  else if tt = identT then
    -- css.go computes parse.ToLower(parse.Copy(data)) here and discards the
    -- result: the lowered copy is never assigned back to data
    let lowered := toLower data
    match ShortenColorName (toHash data) with
    | some hex => (hashT, hex)
    | none => (tt, data)
  else if tt = hashT then
    shortenHash (toLower data)
  else if tt = stringT then
    (tt, removeStringNewlinex data)
  else if tt = urlT then
    let data := toLower (data.take 3) ++ data.drop 3
    if data.length > 10 then
      let uri := trimWhitespaceModel (data.drop 4 |>.take (data.length - 5))
      let delim : Char := if uri.head? = some '"' ∨ uri.head? = some (Char.ofNat 39)
        then uri.headD '"' else '"'
      let uri :=
        if uri.head? = some '"' ∨ uri.head? = some (Char.ofNat 39) then
          let u := removeStringNewlinex uri
          u.drop 1 |>.take (u.length - 2)
        else uri
      let uri := dataURI uri
      if isURLUnquoted uri then (tt, "url(".toList ++ uri ++ [')'])
      else (tt, "url(".toList ++ [delim] ++ uri ++ [delim, ')'])
    else (tt, data)
  else (tt, data)

/-- Placeholder token for out-of-range index accesses; the source's loop
invariants keep all modelled accesses in range. -/
def dummyC : CToken := ⟨numberT, []⟩

def dummyTok : Token := ⟨delimT, [], []⟩

/-- Concatenation of the raw byte payloads of a token list, modelling the
plain write loops of css.go. -/
def concatData (values : List CToken) : List Char :=
  values.foldr (fun v acc => v.data ++ acc) []

/-- Forward scan absorbing a function call's nested span
(the `j`/`level` loop inside minifyDeclaration): everything up to and
including the parenthesis that closes the call at nesting level zero;
only explicit parenthesis tokens adjust the level. Returns the absorbed
span and the remaining components. -/
def funcSpan : List CToken → ℕ → List CToken × List CToken
  | [], _ => ([], [])
  | c :: rest, level =>
    if c.tt = leftParenthesisT then
      let (a, b) := funcSpan rest (level + 1)
      (c :: a, b)
    else if c.tt = rightParenthesisT then
      if level = 0 then ([c], rest)
      else
        let (a, b) := funcSpan rest (level - 1)
        (c :: a, b)
    else
      let (a, b) := funcSpan rest level
      (c :: a, b)

/-- A top-level value separator of the segmentation loop: whitespace, a
comma, or a `/` delimiter. -/
def isSepComp (c : CToken) : Bool :=
  c.tt = whitespaceT ∨ c.tt = commaT ∨ (c.tt = delimT ∧ c.data.head? = some '/')

/-- A block delimiter that makes a declaration value non-simple. -/
def isBlockDelim (t : TokenType) : Bool :=
  t = leftParenthesisT ∨ t = leftBraceT ∨ t = leftBracketT ∨
  t = rightParenthesisT ∨ t = rightBraceT ∨ t = rightBracketT

/-- The simple-value segmentation loop of minifyDeclaration, fuelled for
structural recursion (any fuel at least the component count is exact):
`none` models `simple = false`, `some values` the built value list.
Whitespace separators are dropped, comma and slash separators are kept,
a function token absorbs its span as one opaque entry. -/
def segmentF : ℕ → List CToken → Bool → Option (List Token)
  | _, [], _ => some []
  | 0, _ :: _, _ => none
  | fuel + 1, comp :: rest, prevSep =>
    if isBlockDelim comp.tt then none
    else if ¬prevSep ∧ ¬isSepComp comp then none
    else if isSepComp comp then
      match segmentF fuel rest true with
      | some vs =>
        some (if comp.tt = whitespaceT then vs else ⟨comp.tt, comp.data, []⟩ :: vs)
      | none => none
    else if comp.tt = functionT then
      let (span, rest2) := funcSpan rest 0
      match segmentF fuel rest2 false with
      | some vs => some (⟨comp.tt, comp.data, comp :: span⟩ :: vs)
      | none => none
    else
      match segmentF fuel rest false with
      | some vs => some (⟨comp.tt, comp.data, []⟩ :: vs)
      | none => none

/-- Index of the token before the first comma at or after index 2, or the
length when there is none (the font-family locator loop of the Font
shorthand rule). -/
def fontFamilyStart (values : List Token) : ℕ :=
  match (values.drop 2).findIdx? (fun v => v.tt == commaT) with
  | some j => 2 + j - 1
  | none => values.length

def fontSizeStop (h : Hash) : Bool :=
  h = .xxSmall ∨ h = .xSmall ∨ h = .small ∨ h = .medium ∨ h = .large ∨
  h = .xLarge ∨ h = .xxLarge ∨ h = .smaller ∨ h = .larger ∨ h = .inherit ∨
  h = .initial ∨ h = .unset

/-- The break condition of the backward font-family scan at index `i`. -/
def fontScanBreak (values : List Token) (i : ℕ) : Bool :=
  let prev := values.getD (i - 1) dummyTok
  let cur := values.getD i dummyTok
  (prev.tt = delimT ∧ prev.data.head? = some '/') ∨
  ¬(cur.tt = identT ∨ cur.tt = stringT) ∨
  (cur.tt = identT ∧ fontSizeStop (toHash cur.data))

/-- The backward scan (`for ; i > 0; i--`) locating the font-family start
in the Font shorthand rule. -/
def fontScanBack (values : List Token) : ℕ → ℕ
  | 0 => 0
  | i + 1 => if fontScanBreak values (i + 1) then i + 1 else fontScanBack values i

def splitOnSpaceAux : List Char → List Char → List (List Char)
  | [], acc => [acc.reverse]
  | c :: rest, acc =>
    if c = ' ' then acc.reverse :: splitOnSpaceAux rest []
    else splitOnSpaceAux rest (c :: acc)

/-- Split on every single space byte (`bytes.Split(s, " ")`). -/
def splitOnSpace (s : List Char) : List (List Char) := splitOnSpaceAux s []

/-- The Font_Family shorthand rule: lowercase each string token and unquote it
when every space-separated word of its content is a bare identifier. -/
def minifyFontFamily (values : List Token) : List Token :=
  values.map (fun value =>
    if value.tt = stringT ∧ value.data.length > 2 then
      let low := toLower value.data
      let s := (low.drop 1).take (low.length - 2)
      let unquote : Bool :=
        if s.length > 0 then
          (splitOnSpace s).all (fun split => ¬(split.length = 0) ∧ isIdent split)
        else true
      if unquote then { value with data := s } else { value with data := low }
    else value)

/-- One step of the backward font-weight scan at index `i`: drop a
`normal` keyword or a `400` number, rewrite `bold` to `700`. -/
def fontWeightStep (values : List Token) (i : ℕ) : List Token :=
  match values.get? i with
  | some v =>
    if v.tt = identT then
      if toHash v.data = .normal then values.eraseIdx i
      else if toHash v.data = .bold then
        values.set i { v with tt := numberT, data := "700".toList }
      else values
    else if v.tt = numberT ∧ v.data = "400".toList then values.eraseIdx i
    else values
  | none => values

/-- The backward font-weight scan (`for ; i > -1; i--`). -/
def fontWeightLoop : List Token → ℕ → List Token
  | values, 0 => fontWeightStep values 0
  | values, i + 1 => fontWeightLoop (fontWeightStep values (i + 1)) i

/-- The Font shorthand rule of minifyProperty. -/
def minifyFont (values : List Token) : List Token :=
  if values.length > 1 then
    let i0 := fontFamilyStart values
    let i1 := fontScanBack values (i0 - 1)
    let values := values.take (i1 + 1) ++ minifyFontFamily (values.drop (i1 + 1))
    if i1 > 0 then
      let prev := values.getD (i1 - 1) dummyTok
      let slash : Bool := i1 > 1 ∧ prev.tt = delimT ∧ prev.data.head? = some '/'
      let values :=
        if slash then
          let cur := values.getD i1 dummyTok
          if cur.tt = identT ∧ cur.data = "normal".toList then
            values.take (i1 - 1) ++ values.drop (i1 + 1)
          else values
        else values
      let i2 := if slash then i1 - 2 else i1
      if i2 = 0 then values else fontWeightLoop values (i2 - 1)
    else values
  else values

/-- Index of the last literal-zero token, as the Outline/Border scan
computes it (the `iZero` that keeps being overwritten). -/
def lastZeroIdx (values : List Token) : Option ℕ :=
  match values.reverse.findIdx? (fun v => v.data == ['0']) with
  | some j => some (values.length - 1 - j)
  | none => none

/-- The Outline/Border shorthand rule: rewrite `none` to `0` and, when a
literal zero token was also present, drop the last such zero. -/
def minifyBorder (values : List Token) : List Token :=
  let rewritten := values.map (fun v =>
    if v.data = ['0'] then v
    else if toHash v.data = .noneH then { v with tt := numberT, data := ['0'] }
    else v)
  let noneFound := values.any (fun v => ¬(v.data = ['0']) ∧ toHash v.data = .noneH)
  if noneFound then
    match lastZeroIdx values with
    | some i => rewritten.eraseIdx i
    | none => rewritten
  else rewritten

/-- The shorthand rule table (`minifyProperty` in css.go), keyed by the
property hash and applied to the already-shortened value list. -/
def minifyProperty (prop : Hash) (values : List Token) : List Token :=
  if prop = .font then minifyFont values
  else if prop = .fontFamily then minifyFontFamily values
  else if prop = .fontWeight then
    if values.length = 1 ∧ (values.getD 0 dummyTok).tt = identT then
      let v := values.getD 0 dummyTok
      if toHash v.data = .normal then [{ v with tt := numberT, data := "400".toList }]
      else if toHash v.data = .bold then [{ v with tt := numberT, data := "700".toList }]
      else values
    else values
  else if prop = .margin ∨ prop = .padding ∨ prop = .borderWidth then
    let v0 := values.getD 0 dummyTok
    let v1 := values.getD 1 dummyTok
    let v2 := values.getD 2 dummyTok
    let v3 := values.getD 3 dummyTok
    if values.length = 2 then
      if tokenEqual v0 v1 then values.take 1 else values
    else if values.length = 3 then
      if tokenEqual v0 v1 ∧ tokenEqual v0 v2 then values.take 1
      else if tokenEqual v0 v2 then values.take 2
      else values
    else if values.length = 4 then
      if tokenEqual v0 v1 ∧ tokenEqual v0 v2 ∧ tokenEqual v0 v3 then values.take 1
      else if tokenEqual v0 v2 ∧ tokenEqual v1 v3 then values.take 2
      else if tokenEqual v1 v3 then values.take 3
      else values
    else values
  else if prop = .outline ∨ prop = .border ∨ prop = .borderBottom ∨
      prop = .borderLeft ∨ prop = .borderRight ∨ prop = .borderTop then
    minifyBorder values
  else if prop = .background then
    match values with
    | v0 :: _ =>
      if values.length = 1 ∧ (toHash v0.data = .noneH ∨ v0.data = "#0000".toList) then
        [{ v0 with data := "0 0".toList }]
      else values
    | [] => values
  else if prop = .boxShadow then
    if values.length = 4 ∧ (values.getD 0 dummyTok).data = ['0'] ∧
        (values.getD 1 dummyTok).data = ['0'] ∧ (values.getD 2 dummyTok).data = ['0'] ∧
        (values.getD 3 dummyTok).data = ['0'] then
      values.take 2
    else values
  else if prop = .msFilter then
    match values with
    | v0 :: rest =>
      let alpha := "progid:DXImageTransform.Microsoft.Alpha(Opacity=".toList
      if v0.tt = stringT ∧
          alpha.isPrefixOf ((v0.data.drop 1).take (v0.data.length - 2)) then
        { v0 with data := v0.data.take 1 ++ "alpha(opacity=".toList ++
            v0.data.drop (1 + alpha.length) } :: rest
      else values
    | [] => values
  else values

/-- Lowercase hex digit of a nibble. -/
def hexDigitChar (n : ℕ) : Char :=
  if n < 10 then Char.ofNat (48 + n) else Char.ofNat (87 + n)

/-- Two lowercase hex digits of a byte (`hex.Encode` emits lowercase, so
the subsequent `parse.ToLower` of css.go is the identity here). -/
def hexBytePair (n : ℕ) : List Char := [hexDigitChar (n / 16 % 16), hexDigitChar (n % 16)]

/-- The 9-byte `#rrggbbaa` serialization the color evaluator builds. -/
def hexColorVal (r g b a : ℕ) : List Char :=
  '#' :: (hexBytePair r ++ hexBytePair g ++ hexBytePair b ++ hexBytePair a)

/-- The shared hex-collapsing emission of minifyFunction: with a full
alpha, prefer a named color for the 6-digit prefix, else collapse
double-nibble pairs to `#rgb`, else keep 6 digits; with a partial
alpha, collapse all four double-nibble pairs to `#rgba`, else keep the
8-digit form. -/
def hexColorValue (r g b a : ℕ) : List Char :=
  let val := hexColorVal r g b a
  if a = 255 then
    match ShortenColorHex (val.take 7) with
    | some s => s
    | none =>
      if val.get? 1 = val.get? 2 ∧ val.get? 3 = val.get? 4 ∧ val.get? 5 = val.get? 6 then
        val.take 2 ++ [val.getD 3 ' ', val.getD 5 ' ']
      else val.take 7
  else
    if val.get? 1 = val.get? 2 ∧ val.get? 3 = val.get? 4 ∧ val.get? 5 = val.get? 6 ∧
        val.get? 7 = val.get? 8 then
      val.take 2 ++ [val.getD 3 ' ', val.getD 5 ' ', val.getD 7 ' ']
    else val

/-- One RGB channel byte from a shortened argument token: integers are
clamped to 0..255, percentages are clamped to 0..100 and scaled with
round-half-up. -/
def rgbChannel (t : CToken) : ℕ :=
  if t.tt = numberT then
    let d := parseIntGo t.data
    (if d < 0 then 0 else if d > 255 then 255 else d).toNat
  else if t.tt = percentageT then
    let d := parseFloatGo (t.data.take (t.data.length - 1))
    let d := if d.blt ⟨0, 1⟩ then ⟨0, 1⟩
      else if (⟨100, 1⟩ : Frac).blt d then ⟨100, 1⟩ else d
    goByte (((d.mul ⟨1, 100⟩).mul ⟨255, 1⟩).add ⟨1, 2⟩)
  else 0

/-- Modelled from the spec: `hue2rgb` of the external parser package, the
standard HSL-to-RGB helper: wrap the hue argument once into the unit
interval, then interpolate. -/
def hue2rgb (m1 m2 h : Frac) : Frac :=
  let h := if h.blt ⟨0, 1⟩ then h.add ⟨1, 1⟩
    else if (⟨1, 1⟩ : Frac).blt h then h.sub ⟨1, 1⟩ else h
  if (h.mul ⟨6, 1⟩).blt ⟨1, 1⟩ then m1.add (((m2.sub m1).mul h).mul ⟨6, 1⟩)
  else if (h.mul ⟨2, 1⟩).blt ⟨1, 1⟩ then m2
  else if (h.mul ⟨3, 1⟩).blt ⟨2, 1⟩ then
    m1.add (((m2.sub m1).mul ((⟨2, 3⟩ : Frac).sub h)).mul ⟨6, 1⟩)
  else m1

/-- Modelled from the spec: `css.HSL2RGB` of the external parser package,
the standard hue-saturation-lightness transform on unit-interval
inputs. -/
def hsl2rgb (h s l : Frac) : Frac × Frac × Frac :=
  let m2 := if l.ble ⟨1, 2⟩ then l.mul (s.add ⟨1, 1⟩) else (l.add s).sub (l.mul s)
  let m1 := (l.mul ⟨2, 1⟩).sub m2
  (hue2rgb m1 m2 (h.add ⟨1, 3⟩), hue2rgb m1 m2 h, hue2rgb m1 m2 (h.sub ⟨1, 3⟩))

/-- The hue-wrapping loop of the HSL branch (`for h > 360.0 { h -= 360.0 }`),
fuelled for structural recursion; `wrap360` supplies always-sufficient
fuel. -/
def wrap360F : ℕ → Frac → Frac
  | 0, h => h
  | fuel + 1, h =>
    if (⟨360, 1⟩ : Frac).blt h then wrap360F fuel (h.sub ⟨360, 1⟩) else h

def wrap360 (h : Frac) : Frac := wrap360F (h.num.toNat + 1) h

/-- The saturation/lightness clamp of the HSL branch. -/
def clamp0to100 (d : Frac) : Frac :=
  if d.blt ⟨0, 1⟩ then ⟨0, 1⟩
  else if (⟨100, 1⟩ : Frac).blt d then ⟨100, 1⟩ else d

/-- Whether an argument token counts as numeric in the color function
scan. -/
def isNumericTok (value : CToken) : Bool :=
  value.tt = numberT ∨ value.tt = percentageT

/-- Whether an argument token counts as a separator at position `i` of
the color function scan: a comma, a whitespace anywhere but position 5,
or a slash delimiter exactly at position 5. -/
def isSepAt (i : ℕ) (value : CToken) : Bool :=
  value.tt = commaT ∨ (i ≠ 5 ∧ value.tt = whitespaceT) ∨
    (i = 5 ∧ value.tt = delimT ∧ value.data.head? = some '/')

/-- The strict-alternation scan over a color function's arguments
(`values[1 : n-1]`): even positions must be numeric, odd positions must
satisfy `isSepAt`. Accumulates the sticky validity flag and the indices
(into the full component list) of the numeric arguments. -/
def rgbArgsScanAux : List CToken → ℕ → Bool × List ℕ → Bool × List ℕ
  | [], _, acc => acc
  | value :: rest, i, acc =>
    let step : Bool × List ℕ :=
      if (i % 2 = 0 ∧ ¬isNumericTok value) ∨ (i % 2 = 1 ∧ ¬isSepAt i value) then
        (false, acc.2)
      else if isNumericTok value then (acc.1, acc.2 ++ [i + 1])
      else acc
    rgbArgsScanAux rest (i + 1) step

def rgbArgsScan (args : List CToken) : Bool × List ℕ :=
  rgbArgsScanAux args 0 (true, [])

/-- Shortening of the collected numeric arguments in place (the pointers
in `vals` alias the `values` slice in css.go). -/
def shortenAtAux (o : Opts) : List CToken → ℕ → List ℕ → List CToken
  | [], _, _ => []
  | v :: rest, i, idxs =>
    (if i ∈ idxs then
      let r := shortenToken o .zero v.tt v.data
      (⟨r.1, r.2⟩ : CToken)
    else v) :: shortenAtAux o rest (i + 1) idxs

def shortenAt (o : Opts) (values : List CToken) (idxs : List ℕ) : List CToken :=
  shortenAtAux o values 0 idxs

/-- Replace the byte payload of the head token (the function-name rewrite
`values[0].Data = ...`). -/
def setHeadData (values : List CToken) (d : List Char) : List CToken :=
  match values with
  | [] => []
  | v :: rest => { v with data := d } :: rest

/-- The color/function evaluator (`minifyFunction` in css.go), serializing
one function-call token's component list. -/
def minifyFunction (o : Opts) (values : List CToken) : List Char :=
  if values.length > 2 then
    let fn := toHash ((values.headD dummyC).data.dropLast)
    if fn = .rgb ∨ fn = .rgba ∨ fn = .hsl ∨ fn = .hsla then
      let args := (values.drop 1).take (values.length - 2)
      let scan := rgbArgsScan args
      if scan.1 then
        let values := shortenAt o values scan.2
        let vals := scan.2.map (fun i => values.getD i dummyC)
        let aRes : Option (ℕ × List CToken) :=
          if vals.length = 4 then
            let d := parseFloatGo ((values.getD 7 dummyC).data)
            if d.blt Epsilon then none
            else if (⟨1, 1⟩ : Frac).ble d then some (255, values.take 7)
            else some (goByte ((d.mul ⟨255, 1⟩).add ⟨1, 2⟩), values)
          else some (255, values)
        match aRes with
        | none => "#0000".toList
        | some (a, values) =>
          if (fn = .rgb ∨ fn = .rgba) ∧ (vals.length = 3 ∨ vals.length = 4) then
            let values := if ¬o.keepCSS2 ∧ fn = .rgba then setHeadData values "rgb(".toList
              else values
            let r := rgbChannel (vals.getD 0 dummyC)
            let g := rgbChannel (vals.getD 1 dummyC)
            let b := rgbChannel (vals.getD 2 dummyC)
            let val := hexColorValue r g b a
            if ¬o.keepCSS2 ∨ a = 255 then val else concatData values
          else if (fn = .hsl ∨ fn = .hsla) ∧ (vals.length = 3 ∨ vals.length = 4) then
            let values := if ¬o.keepCSS2 ∧ fn = .hsla then setHeadData values "hsl(".toList
              else values
            if (vals.getD 0 dummyC).tt = numberT ∧ (vals.getD 1 dummyC).tt = percentageT ∧
                (vals.getD 2 dummyC).tt = percentageT then
              let hh := parseFloatGo (vals.getD 0 dummyC).data
              let ss := parseFloatGo ((vals.getD 1 dummyC).data.dropLast)
              let ll := parseFloatGo ((vals.getD 2 dummyC).data.dropLast)
              let hh := wrap360 hh
              let ss := clamp0to100 ss
              let ll := clamp0to100 ll
              let rgbv := hsl2rgb (hh.mul ⟨1, 360⟩) (ss.mul ⟨1, 100⟩) (ll.mul ⟨1, 100⟩)
              let val := hexColorValue (goByte ((rgbv.1.mul ⟨255, 1⟩).add ⟨1, 2⟩))
                (goByte ((rgbv.2.1.mul ⟨255, 1⟩).add ⟨1, 2⟩))
                (goByte ((rgbv.2.2.mul ⟨255, 1⟩).add ⟨1, 2⟩)) a
              if ¬o.keepCSS2 ∨ a = 255 then val else []
            else concatData values
          else concatData values
      else concatData values
    else if fn = .local ∧ values.length = 3 then
      let v1 := values.getD 1 dummyC
      let values :=
        if v1.data.head? = some (Char.ofNat 39) ∨ v1.data.head? = some '"' then
          let data := removeStringNewlinex v1.data
          let data :=
            if isURLUnquoted ((data.drop 1).take (data.length - 2)) then
              (data.drop 1).take (data.length - 2)
            else data
          values.set 1 { v1 with data := data }
        else values
      concatData values
    else concatData values
  else concatData values

/-- Trailing `!important` detection of minifyDeclaration: at least three
components, with a `!` delimiter and an identifier hashing to
`important` as the last two. -/
def hasImportantSuffix (components : List CToken) : Bool :=
  components.length > 2 ∧
  (components.getD (components.length - 2) dummyC).tt = delimT ∧
  (components.getD (components.length - 2) dummyC).data.head? = some '!' ∧
  toHash (components.getD (components.length - 1) dummyC).data = .important

/-- The legacy `filter: progid:DXImageTransform.Microsoft.Alpha(Opacity=...)`
rewrite applied on the non-simple path. Matching is left to right; the
opacity component is lowercased in place as soon as the first seven
checks pass, even when a later check fails. -/
def filterProgidRewrite (components : List CToken) : List CToken :=
  if (components.getD 0 dummyC).data = "progid".toList ∧
      (components.getD 1 dummyC).tt = colonT ∧
      (components.getD 2 dummyC).data = "DXImageTransform".toList ∧
      (components.getD 3 dummyC).data.head? = some '.' ∧
      (components.getD 4 dummyC).data = "Microsoft".toList ∧
      (components.getD 5 dummyC).data.head? = some '.' ∧
      (components.getD 6 dummyC).data = "Alpha(".toList then
    let c7 := components.getD 7 dummyC
    let components := components.set 7 { c7 with data := toLower c7.data }
    if toLower c7.data = "opacity".toList ∧
        (components.getD 8 dummyC).data.head? = some '=' ∧
        (components.getD 10 dummyC).data.head? = some ')' then
      setHeadData (components.drop 6) "alpha(".toList
    else components
  else components

/-- Serialization of a simple value list: one space before a unit unless
the previous unit was a comma or slash separator; function units are
serialized by the color/function evaluator. -/
def serializeValues (o : Opts) (values : List Token) : List Char :=
  (values.foldl
    (fun (acc : List Char × Bool) value =>
      let sp : List Char :=
        if ¬acc.2 ∧ value.tt ≠ commaT ∧ ¬(value.tt = delimT ∧ value.data.head? = some '/')
        then [' '] else []
      let out := if value.tt = functionT then minifyFunction o value.components
        else value.data
      (acc.1 ++ sp ++ out,
       value.tt = commaT ∨ (value.tt = delimT ∧ value.data.head? = some '/')))
    ([], true)).1

/-- The value processing of minifyDeclaration after the `!important`
strip: segmentation, then either the verbatim (non-simple) path with
the legacy filter rewrite, or shortening, the shorthand rule table and
serialization; the important marker is appended on both paths. -/
def minifyDeclBody (o : Opts) (prop : Hash) (components : List CToken)
    (important : Bool) : List Char :=
  (match segmentF components.length components true with
   | none =>
     let components :=
       if prop = .filter ∧ components.length = 11 then filterProgidRewrite components
       else components
     concatData components
   | some values =>
     let values := values.map (fun v =>
       let r := shortenToken o prop v.tt v.data
       ⟨r.1, r.2, v.components⟩)
     let values := if values.length > 0 then minifyProperty prop values else values
     serializeValues o values) ++
  (if important then "!important".toList else [])

/-- The declaration/value minifier (`minifyDeclaration` in css.go). -/
def minifyDeclaration (o : Opts) (property : List Char) (components : List CToken) :
    List Char :=
  if components = [] then []
  else
    let important := hasImportantSuffix components
    let components1 :=
      if important then components.take (components.length - 2) else components
    minifyDeclBody o (toHash property) components1 important

/-- The selector minifier (`minifySelectors` in css.go): lowercase type
selectors (not class names), unquote identifier-shaped attribute
values. -/
def minifySelectors (values : List CToken) : List Char :=
  (values.foldl
    (fun (acc : List Char × Bool × Bool) val =>
      let out := acc.1
      let inAttr := acc.2.1
      let isClass := acc.2.2
      if ¬inAttr then
        if val.tt = identT then
          (out ++ (if ¬isClass then toLower val.data else val.data), inAttr, false)
        else if val.tt = delimT ∧ val.data.head? = some '.' then
          (out ++ val.data, inAttr, true)
        else if val.tt = leftBracketT then (out ++ val.data, true, isClass)
        else (out ++ val.data, inAttr, isClass)
      else
        if val.tt = stringT ∧ val.data.length > 2 ∧
            isIdent ((val.data.drop 1).take (val.data.length - 2)) then
          (out ++ (val.data.drop 1).take (val.data.length - 2), inAttr, isClass)
        else if val.tt = rightBracketT then (out ++ val.data, false, isClass)
        else (out ++ val.data, inAttr, isClass))
    ([], false, false)).1

/-- Errors of the external parser as css.go distinguishes them:
end-of-input (`io.EOF`) or a `parse.Error` with a message. -/
inductive PError where
  | eof
  | parseErr (msg : List Char)
  deriving DecidableEq, Repr

/-- The one recoverable parser message. -/
def unexpectedTokenMsg : List Char := "unexpected token in declaration".toList

/-- Grammar events of the external parser (`css.GrammarType` together with
the data/values the parser exposes for each); `errorG` carries the
parser error, `tokenG` stands for the default passthrough case. -/
inductive GEvent where
  | errorG (err : PError) (data : List Char) (vals : List CToken)
  | atRule (data : List Char) (vals : List CToken)
  | beginAtRule (data : List Char) (vals : List CToken)
  | endAtRule
  | qualifiedRule (data : List Char) (vals : List CToken)
  | beginRuleset (data : List Char) (vals : List CToken)
  | endRuleset
  | declaration (data : List Char) (vals : List CToken)
  | customProperty (data : List Char) (vals : List CToken)
  | comment (data : List Char)
  | tokenG (data : List Char)
  deriving DecidableEq, Repr

/-- The `@import` keyword-URL rewrite of the AtRule branch: rewrite the
URL content of an exactly-two-value import into a double-quoted string
literal. -/
def atRuleImportRewrite (data : List Char) (values : List CToken) : List CToken :=
  if toHash (data.drop 1) = .importH ∧ values.length = 2 ∧
      (values.getD 1 dummyC).tt = urlT then
    let url := (values.getD 1 dummyC).data
    let url :=
      if ¬(url.getD 4 ' ' = '"') ∧ ¬(url.getD 4 ' ' = Char.ofNat 39) then
        '"' :: ((url.drop 4).dropLast ++ ['"'])
      else (url.drop 4).dropLast
    values.set 1 { values.getD 1 dummyC with data := url }
  else values

/-- The important-comment emission of the Comment branch: keep only
comments opening with `/*!`, with interior whitespace collapsed and
trimmed. -/
def commentOut (data : List Char) : List Char :=
  if data.length > 5 ∧ data.getD 1 ' ' = '*' ∧ data.getD 2 ' ' = '!' then
    data.take 3 ++
      trimWhitespaceModel (replaceMultipleWhitespace ((data.drop 3).take (data.length - 5))) ++
      data.drop (data.length - 2)
  else []

/-- The grammar consumer loop (`minifyGrammar` in css.go) over a parser
event stream: the produced bytes and the error that ended the loop
(`none` only when the modelled stream is exhausted, which a faithful
stream ends with an error event instead). -/
def minifyGrammar (o : Opts) : List GEvent → Bool → List Char × Option PError
  | [], _ => ([], none)
  | .errorG err data vals :: rest, semicolonQueued =>
    if err = .parseErr unexpectedTokenMsg then
      let pre : List Char := if semicolonQueued then [';'] else []
      let dropSemi : Bool := vals ≠ [] ∧ (vals.getLast?.map CToken.tt) = some semicolonT
      let vals2 := if dropSemi then vals.dropLast else vals
      -- the recovery branch never clears the queued-semicolon flag
      let q2 := if dropSemi then true else semicolonQueued
      let r := minifyGrammar o rest q2
      (pre ++ data ++ concatData vals2 ++ r.1, r.2)
    else ([], some err)
  | .endAtRule :: rest, _ =>
    let r := minifyGrammar o rest false
    (Char.ofNat 125 :: r.1, r.2)
  | .endRuleset :: rest, _ =>
    let r := minifyGrammar o rest false
    (Char.ofNat 125 :: r.1, r.2)
  | .atRule data vals :: rest, semicolonQueued =>
    let pre : List Char := if semicolonQueued then [';'] else []
    let vals := atRuleImportRewrite data vals
    let r := minifyGrammar o rest true
    (pre ++ data ++ concatData vals ++ r.1, r.2)
  | .beginAtRule data vals :: rest, semicolonQueued =>
    let pre : List Char := if semicolonQueued then [';'] else []
    let r := minifyGrammar o rest false
    (pre ++ data ++ concatData vals ++ [Char.ofNat 123] ++ r.1, r.2)
  | .qualifiedRule data vals :: rest, semicolonQueued =>
    let pre : List Char := if semicolonQueued then [';'] else []
    let r := minifyGrammar o rest false
    (pre ++ minifySelectors vals ++ [','] ++ r.1, r.2)
  | .beginRuleset data vals :: rest, semicolonQueued =>
    let pre : List Char := if semicolonQueued then [';'] else []
    let r := minifyGrammar o rest false
    (pre ++ minifySelectors vals ++ [Char.ofNat 123] ++ r.1, r.2)
  | .declaration data vals :: rest, semicolonQueued =>
    let pre : List Char := if semicolonQueued then [';'] else []
    let r := minifyGrammar o rest true
    (pre ++ data ++ [':'] ++ minifyDeclaration o data vals ++ r.1, r.2)
  | .customProperty data vals :: rest, semicolonQueued =>
    let pre : List Char := if semicolonQueued then [';'] else []
    let r := minifyGrammar o rest true
    (pre ++ data ++ [':'] ++ (vals.getD 0 dummyC).data ++ r.1, r.2)
  | .comment data :: rest, semicolonQueued =>
    let pre : List Char := if semicolonQueued then [';'] else []
    let r := minifyGrammar o rest false
    (pre ++ commentOut data ++ r.1, r.2)
  | .tokenG data :: rest, semicolonQueued =>
    let pre : List Char := if semicolonQueued then [';'] else []
    let r := minifyGrammar o rest false
    (pre ++ data ++ r.1, r.2)

deriving instance DecidableEq for Except

/-- The top-level entry (`Minifier.Minify` in css.go): run the grammar
loop and keep end-of-input as success, surfacing every other error. -/
def Minify (o : Opts) (events : List GEvent) : Except PError (List Char) :=
  let r := minifyGrammar o events false
  match r.2 with
  | some e => if e = .eof then .ok r.1 else .error e
  | none => .ok r.1

/-! Supporting lemmas about the fraction model. -/

theorem Frac.q_sub (a b : Frac) (ha : a.pos) (hb : b.pos) :
    (a.sub b).q = a.q - b.q := by
  have ha' : (a.den : ℚ) ≠ 0 := Int.cast_ne_zero.mpr ha.ne'
  have hb' : (b.den : ℚ) ≠ 0 := Int.cast_ne_zero.mpr hb.ne'
  unfold Frac.q Frac.sub
  push_cast
  field_simp
  ring

theorem Frac.sub_pos_den (a b : Frac) (ha : a.pos) (hb : b.pos) : (a.sub b).pos := by
  unfold Frac.pos Frac.sub at *
  exact mul_pos ha hb

theorem Frac.blt_iff (a b : Frac) (ha : a.pos) (hb : b.pos) :
    a.blt b = true ↔ a.q < b.q := by
  unfold Frac.blt Frac.q Frac.pos at *
  rw [decide_eq_true_eq, div_lt_div_iff (by exact_mod_cast ha) (by exact_mod_cast hb)]
  exact_mod_cast Iff.rfl

theorem Frac.ble_iff (a b : Frac) (ha : a.pos) (hb : b.pos) :
    a.ble b = true ↔ a.q ≤ b.q := by
  unfold Frac.ble Frac.q Frac.pos at *
  rw [decide_eq_true_eq, div_le_div_iff (by exact_mod_cast ha) (by exact_mod_cast hb)]
  exact_mod_cast Iff.rfl

theorem q_360 : (⟨360, 1⟩ : Frac).q = 360 := by norm_num [Frac.q]

theorem pos_360 : (⟨360, 1⟩ : Frac).pos := by norm_num [Frac.pos]

/-- The wrapping loop computes a value congruent to the input modulo 360
and not above 360, given enough fuel. -/
theorem wrap360F_spec (fuel : ℕ) :
    ∀ h : Frac, h.pos → h.q ≤ 360 * (fuel + 1) →
      ∃ k : ℕ, (wrap360F fuel h).q = h.q - 360 * k ∧ (wrap360F fuel h).q ≤ 360 ∧
        (wrap360F fuel h).pos := by
  induction fuel with
  | zero =>
    intro h hp hb
    exact ⟨0, by simp [wrap360F], by simpa using hb, hp⟩
  | succ n ih =>
    intro h hp hb
    by_cases hc : (⟨360, 1⟩ : Frac).blt h = true
    · have h360 : (360 : ℚ) < h.q := by
        have := (Frac.blt_iff _ _ pos_360 hp).1 hc
        rwa [q_360] at this
      have hstep : wrap360F (n + 1) h = wrap360F n (h.sub ⟨360, 1⟩) := by
        simp [wrap360F, hc]
      have hsubpos : (h.sub ⟨360, 1⟩).pos := Frac.sub_pos_den _ _ hp pos_360
      have hsubq : (h.sub ⟨360, 1⟩).q = h.q - 360 := by
        rw [Frac.q_sub _ _ hp pos_360, q_360]
      obtain ⟨k, hk1, hk2, hk3⟩ := ih (h.sub ⟨360, 1⟩) hsubpos (by
        rw [hsubq]; push_cast at hb ⊢; linarith)
      refine ⟨k + 1, ?_, by rw [hstep]; exact hk2, by rw [hstep]; exact hk3⟩
      rw [hstep, hk1, hsubq]
      push_cast
      ring
    · have hle : h.q ≤ 360 := by
        by_contra hgt
        push_neg at hgt
        exact hc ((Frac.blt_iff _ _ pos_360 hp).2 (by rwa [q_360]))
      exact ⟨0, by simp [wrap360F, hc], by simpa [wrap360F, hc] using hle, by
        simpa [wrap360F, hc] using hp⟩

/-- Characterization of the hue wrap: a hue not above 360 (in particular
any negative hue) is returned unchanged; a hue above 360 is reduced by a
multiple of 360 into a value not above 360. -/
theorem wrap360_spec (h : Frac) (hp : h.pos) :
    ((⟨360, 1⟩ : Frac).blt h = false → wrap360 h = h) ∧
    ((⟨360, 1⟩ : Frac).blt h = true →
      ∃ k : ℕ, (wrap360 h).q = h.q - 360 * k ∧ (wrap360 h).q ≤ 360) := by
  constructor
  · intro hc
    simp [wrap360, wrap360F, hc]
  · intro hc
    have h360 : (360 : ℚ) < h.q := by
      have := (Frac.blt_iff _ _ pos_360 hp).1 hc
      rwa [q_360] at this
    have hnum : 0 < h.num := by
      by_contra hle
      push_neg at hle
      have : h.q ≤ 0 := by
        unfold Frac.q
        apply div_nonpos_of_nonpos_of_nonneg
        · exact_mod_cast hle
        · have := hp; unfold Frac.pos at this; positivity
      linarith
    have hbound : h.q ≤ 360 * (((h.num.toNat + 1 : ℕ) : ℚ) + 1) := by
      have h1 : h.q ≤ (h.num : ℚ) := by
        unfold Frac.q
        have hd1 : (1 : ℚ) ≤ (h.den : ℚ) := by
          have := hp; unfold Frac.pos at this; exact_mod_cast this
        exact div_le_self (by exact_mod_cast hnum.le) hd1
      have h2 : (h.num : ℚ) = ((h.num.toNat : ℕ) : ℚ) := by
        exact_mod_cast (Int.toNat_of_nonneg hnum.le).symm
      have h3 : (0 : ℚ) ≤ ((h.num.toNat : ℕ) : ℚ) := by positivity
      push_cast
      linarith [h1, h2, h3]
    obtain ⟨k, hk1, hk2, _⟩ := wrap360F_spec (h.num.toNat + 1) h hp hbound
    exact ⟨k, by rwa [wrap360], by rwa [wrap360]⟩

/-- The saturation/lightness clamp computes the clamp of the value into
the interval from 0 to 100. -/
theorem clamp0to100_q (d : Frac) (hd : d.pos) :
    (clamp0to100 d).q = max 0 (min 100 d.q) := by
  have p0 : (⟨0, 1⟩ : Frac).pos := by norm_num [Frac.pos]
  have p100 : (⟨100, 1⟩ : Frac).pos := by norm_num [Frac.pos]
  have q0 : (⟨0, 1⟩ : Frac).q = 0 := by norm_num [Frac.q]
  have q100 : (⟨100, 1⟩ : Frac).q = 100 := by norm_num [Frac.q]
  unfold clamp0to100
  by_cases h1 : d.blt ⟨0, 1⟩ = true
  · have hlt : d.q < 0 := by
      have := (Frac.blt_iff _ _ hd p0).1 h1
      rwa [q0] at this
    rw [if_pos h1, q0, min_eq_right (by linarith), max_eq_left (by linarith)]
  · have hge : 0 ≤ d.q := by
      by_contra hlt
      push_neg at hlt
      exact h1 ((Frac.blt_iff _ _ hd p0).2 (by rwa [q0]))
    rw [if_neg h1]
    by_cases h2 : (⟨100, 1⟩ : Frac).blt d = true
    · have hgt : 100 < d.q := by
        have := (Frac.blt_iff _ _ p100 hd).1 h2
        rwa [q100] at this
      rw [if_pos h2, q100, min_eq_left (by linarith), max_eq_right (by linarith)]
    · have hle : d.q ≤ 100 := by
        by_contra hgt
        push_neg at hgt
        exact h2 ((Frac.blt_iff _ _ p100 hd).2 (by rwa [q100]))
      rw [if_neg h2, min_eq_right hle, max_eq_right hge]

/-- The keyword hash resolves to `important` exactly on the bytes
`important`. -/
theorem toHash_eq_important {s : List Char} :
    toHash s = .important ↔ s = "important".toList := by
  constructor
  · intro h
    unfold toHash at h
    rcases hf : keywordTable.find? (fun p => p.1 == s) with _ | p
    · rw [hf] at h
      exact Hash.noConfusion h
    · rw [hf] at h
      have hmem := List.mem_of_find?_eq_some hf
      have hs : p.1 = s := by simpa using List.find?_some hf
      have key : ∀ p ∈ keywordTable, p.2 = Hash.important → p.1 = "important".toList := by
        decide
      rw [← hs]
      exact key p hmem h
  · intro h
    subst h
    decide

/-! Claim theorems. -/

/-- C1: For every margin, padding or border-width declaration whose
shortened value list has 2, 3 or 4 entries, the shorthand rule table
quad-collapses it: 2 structurally-equal values become 1; 3 values become
1 when all three are equal, else 2 when the first equals the third;
4 values become 1 when all are equal, else 2 when the first equals the
third and the second equals the fourth, else 3 when the second equals
the fourth; in particular the value list of margin:1px 1px 1px 1px
minifies to the single token 1px, and that of margin:1px 2px 1px 2px to
1px 2px. -/
theorem C1_quad_collapse (prop : Hash) (values : List Token)
    (hp : prop = .margin ∨ prop = .padding ∨ prop = .borderWidth) :
    (values.length = 2 →
      tokenEqual (values.getD 0 dummyTok) (values.getD 1 dummyTok) = true →
      minifyProperty prop values = values.take 1) ∧
    (values.length = 3 →
      tokenEqual (values.getD 0 dummyTok) (values.getD 1 dummyTok) = true →
      tokenEqual (values.getD 0 dummyTok) (values.getD 2 dummyTok) = true →
      minifyProperty prop values = values.take 1) ∧
    (values.length = 3 →
      ¬(tokenEqual (values.getD 0 dummyTok) (values.getD 1 dummyTok) = true ∧
        tokenEqual (values.getD 0 dummyTok) (values.getD 2 dummyTok) = true) →
      tokenEqual (values.getD 0 dummyTok) (values.getD 2 dummyTok) = true →
      minifyProperty prop values = values.take 2) ∧
    (values.length = 4 →
      tokenEqual (values.getD 0 dummyTok) (values.getD 1 dummyTok) = true →
      tokenEqual (values.getD 0 dummyTok) (values.getD 2 dummyTok) = true →
      tokenEqual (values.getD 0 dummyTok) (values.getD 3 dummyTok) = true →
      minifyProperty prop values = values.take 1) ∧
    (values.length = 4 →
      ¬(tokenEqual (values.getD 0 dummyTok) (values.getD 1 dummyTok) = true ∧
        tokenEqual (values.getD 0 dummyTok) (values.getD 2 dummyTok) = true ∧
        tokenEqual (values.getD 0 dummyTok) (values.getD 3 dummyTok) = true) →
      tokenEqual (values.getD 0 dummyTok) (values.getD 2 dummyTok) = true →
      tokenEqual (values.getD 1 dummyTok) (values.getD 3 dummyTok) = true →
      minifyProperty prop values = values.take 2) ∧
    (values.length = 4 →
      ¬(tokenEqual (values.getD 0 dummyTok) (values.getD 1 dummyTok) = true ∧
        tokenEqual (values.getD 0 dummyTok) (values.getD 2 dummyTok) = true ∧
        tokenEqual (values.getD 0 dummyTok) (values.getD 3 dummyTok) = true) →
      ¬(tokenEqual (values.getD 0 dummyTok) (values.getD 2 dummyTok) = true ∧
        tokenEqual (values.getD 1 dummyTok) (values.getD 3 dummyTok) = true) →
      tokenEqual (values.getD 1 dummyTok) (values.getD 3 dummyTok) = true →
      minifyProperty prop values = values.take 3) ∧
    minifyDeclaration defaultOpts "margin".toList
      [⟨dimensionT, "1px".toList⟩, ⟨whitespaceT, [' ']⟩, ⟨dimensionT, "1px".toList⟩,
       ⟨whitespaceT, [' ']⟩, ⟨dimensionT, "1px".toList⟩, ⟨whitespaceT, [' ']⟩,
       ⟨dimensionT, "1px".toList⟩] = "1px".toList ∧
    minifyDeclaration defaultOpts "margin".toList
      [⟨dimensionT, "1px".toList⟩, ⟨whitespaceT, [' ']⟩, ⟨dimensionT, "2px".toList⟩,
       ⟨whitespaceT, [' ']⟩, ⟨dimensionT, "1px".toList⟩, ⟨whitespaceT, [' ']⟩,
       ⟨dimensionT, "2px".toList⟩] = "1px 2px".toList := by
  refine ⟨?_, ?_, ?_, ?_, ?_, ?_, by decide, by decide⟩ <;>
    rcases hp with h | h | h <;> subst h <;> intros <;> simp_all [minifyProperty]

/-- Witness for C1: the 4-entry list 1px 2px 1px 2px collapses to its
first two entries. -/
theorem C1_quad_collapse_witness :
    minifyProperty .margin
      [⟨dimensionT, "1px".toList, []⟩, ⟨dimensionT, "2px".toList, []⟩,
       ⟨dimensionT, "1px".toList, []⟩, ⟨dimensionT, "2px".toList, []⟩] =
      [⟨dimensionT, "1px".toList, []⟩, ⟨dimensionT, "2px".toList, []⟩] := by
  have h := (C1_quad_collapse .margin
    [⟨dimensionT, "1px".toList, []⟩, ⟨dimensionT, "2px".toList, []⟩,
     ⟨dimensionT, "1px".toList, []⟩, ⟨dimensionT, "2px".toList, []⟩]
    (Or.inl rfl)).2.2.2.2.1 (by decide) (by decide) (by decide) (by decide)
  exact h.trans (by decide)

/-- Shortening a number token under the zero property hash reformats the
numeral and keeps the kind. -/
theorem shortenToken_number_zero (o : Opts) (r : List Char) :
    shortenToken o .zero numberT r = (numberT, minifyNumber r) := by
  simp [shortenToken, isIntegerProp, toLower]

/-- The component list of `rgba(r,g,b,a)` with comma separators. -/
def rgbaTokens (r g b a : CToken) : List CToken :=
  [⟨functionT, "rgba(".toList⟩, r, ⟨commaT, [',']⟩, g, ⟨commaT, [',']⟩, b,
   ⟨commaT, [',']⟩, a, ⟨rightParenthesisT, [')']⟩]

/-- C2 (amended): For every syntactically valid rgb/rgba/hsl/hsla value
carrying a 4th alpha argument, an alpha whose shortened bytes
float32-parse below the implementation threshold 1e-5 collapses the
whole color to the transparent literal — over float32-parsed values
this coincides with at-or-below the implementation epsilon, whose own
literal 0.00001 parses under the threshold and collapses (last
conjunct) — while a percentage alpha fails the float parse, yields 0
and always collapses this way; a number-token alpha at or above 1.0
drops the alpha channel and the color is emitted in its 3-channel
form, and any other number-token alpha is rounded half-up to a byte
from its float32-parsed value. In particular rgba(0,0,0,1) emits #000
and rgba(0,0,0,0) emits #0000. -/
theorem C2_alpha_regimes (r g bl al : List Char) :
    (∀ (o : Opts) (values : List CToken),
      values.length > 2 →
      (toHash ((values.headD dummyC).data.dropLast) = .rgb ∨
        toHash ((values.headD dummyC).data.dropLast) = .rgba ∨
        toHash ((values.headD dummyC).data.dropLast) = .hsl ∨
        toHash ((values.headD dummyC).data.dropLast) = .hsla) →
      (rgbArgsScan ((values.drop 1).take (values.length - 2))).1 = true →
      ((rgbArgsScan ((values.drop 1).take (values.length - 2))).2).length = 4 →
      (parseFloatGo
          ((shortenAt o values
              (rgbArgsScan ((values.drop 1).take (values.length - 2))).2).getD 7
            dummyC).data).blt Epsilon = true →
      minifyFunction o values = "#0000".toList) ∧
    ((parseFloatGo (minifyNumber al)).blt Epsilon = false →
      Frac.ble ⟨1, 1⟩ (parseFloatGo (minifyNumber al)) = true →
      minifyFunction defaultOpts
          (rgbaTokens ⟨numberT, r⟩ ⟨numberT, g⟩ ⟨numberT, bl⟩ ⟨numberT, al⟩) =
        hexColorValue (rgbChannel ⟨numberT, minifyNumber r⟩)
          (rgbChannel ⟨numberT, minifyNumber g⟩)
          (rgbChannel ⟨numberT, minifyNumber bl⟩) 255) ∧
    ((parseFloatGo (minifyNumber al)).blt Epsilon = false →
      Frac.ble ⟨1, 1⟩ (parseFloatGo (minifyNumber al)) = false →
      minifyFunction defaultOpts
          (rgbaTokens ⟨numberT, r⟩ ⟨numberT, g⟩ ⟨numberT, bl⟩ ⟨numberT, al⟩) =
        hexColorValue (rgbChannel ⟨numberT, minifyNumber r⟩)
          (rgbChannel ⟨numberT, minifyNumber g⟩)
          (rgbChannel ⟨numberT, minifyNumber bl⟩)
          (goByte (((parseFloatGo (minifyNumber al)).mul ⟨255, 1⟩).add ⟨1, 2⟩))) ∧
    minifyFunction defaultOpts
      (rgbaTokens ⟨numberT, ['0']⟩ ⟨numberT, ['0']⟩ ⟨numberT, ['0']⟩ ⟨numberT, ['1']⟩) =
      "#000".toList ∧
    minifyFunction defaultOpts
      (rgbaTokens ⟨numberT, ['0']⟩ ⟨numberT, ['0']⟩ ⟨numberT, ['0']⟩ ⟨numberT, ['0']⟩) =
      "#0000".toList ∧
    minifyFunction defaultOpts
      (rgbaTokens ⟨numberT, ['1']⟩ ⟨numberT, ['2']⟩ ⟨numberT, ['3']⟩
        ⟨numberT, "0.00001".toList⟩) = "#0000".toList := by
  refine ⟨?_, ?_, ?_, by decide, by decide, by decide⟩
  · intro o values hn hf hv h4 heps
    simp only [minifyFunction]
    rw [if_pos hn, if_pos hf, if_pos hv, List.length_map, if_pos h4, if_pos heps]
  · intro h1 h2
    have ht : toHash ['r', 'g', 'b', 'a'] = Hash.rgba := by decide
    simp only [minifyFunction, rgbaTokens, rgbArgsScan, rgbArgsScanAux, shortenAt,
      shortenAtAux, isNumericTok, isSepAt, shortenToken_number_zero]
    simp [h1, h2, ht, defaultOpts]
  · intro h1 h2
    have ht : toHash ['r', 'g', 'b', 'a'] = Hash.rgba := by decide
    simp only [minifyFunction, rgbaTokens, rgbArgsScan, rgbArgsScanAux, shortenAt,
      shortenAtAux, isNumericTok, isSepAt, shortenToken_number_zero]
    simp [h1, h2, ht, defaultOpts]

/-- Witness for C2: rgba(1,2,3,0.5) carries alpha one half, rounded
half-up to the byte 128, and emits the 8-digit hex form. -/
theorem C2_alpha_regimes_witness :
    minifyFunction defaultOpts
      (rgbaTokens ⟨numberT, "1".toList⟩ ⟨numberT, "2".toList⟩ ⟨numberT, "3".toList⟩
        ⟨numberT, "0.5".toList⟩) = "#01020380".toList := by
  have h := (C2_alpha_regimes "1".toList "2".toList "3".toList "0.5".toList).2.2.1
    (by decide) (by decide)
  exact h.trans (by decide)

/-- Counterexample for C2: rgba(0,0,0,50%) carries the alpha value one
half, which the claim rounds half-up to the byte 128; the code instead
feeds the percentage bytes to the float parse, which fails and yields
0, collapsing the color to the transparent literal. -/
theorem C2_alpha_counterexample :
    minifyFunction defaultOpts
      (rgbaTokens ⟨numberT, ['0']⟩ ⟨numberT, ['0']⟩ ⟨numberT, ['0']⟩
        ⟨percentageT, "50%".toList⟩) = "#0000".toList ∧
    ¬minifyFunction defaultOpts
        (rgbaTokens ⟨numberT, ['0']⟩ ⟨numberT, ['0']⟩ ⟨numberT, ['0']⟩
          ⟨percentageT, "50%".toList⟩) =
      hexColorValue 0 0 0 (goByte (((⟨1, 2⟩ : Frac).mul ⟨255, 1⟩).add ⟨1, 2⟩)) := by
  decide

/-- C3: For every hash-color token passed to the token shortener, the
bytes are lowercased first; a 9-byte 8-hex-digit form whose alpha
digits are both f drops to the 6-digit form, and one whose alpha digits
are both 0 becomes the literal transparent marker #0000; the result is
then preferred as a named color when the reverse color-name table has
an entry; otherwise a 6-digit hex whose three byte-pairs each repeat a
nibble collapses to 3 digits, and an 8-digit one analogously to 4
digits; in particular #ffffff emits #fff and #FF0000FF emits red. -/
theorem C3_hash_shorten (p : Hash) (o : Opts) (data nm : List Char) :
    shortenToken o p hashT data = shortenHash (toLower data) ∧
    (data.length = 9 → data.get? 7 = some 'f' → data.get? 8 = some 'f' →
      shortenHash data = shortenHash (data.take 7)) ∧
    (data.length = 9 → data.get? 7 = some '0' → data.get? 8 = some '0' →
      shortenHash data = (hashT, "#0000".toList)) ∧
    (data.length = 7 → ShortenColorHex data = some nm →
      shortenHash data = (identT, nm)) ∧
    (data.length = 7 → ShortenColorHex data = none →
      data.get? 1 = data.get? 2 → data.get? 3 = data.get? 4 → data.get? 5 = data.get? 6 →
      shortenHash data = (hashT, data.take 2 ++ [data.getD 3 ' ', data.getD 5 ' '])) ∧
    (data.length = 9 → ¬data.get? 7 = some 'f' → ¬data.get? 7 = some '0' →
      ShortenColorHex data = none →
      data.get? 1 = data.get? 2 → data.get? 3 = data.get? 4 → data.get? 5 = data.get? 6 →
      data.get? 7 = data.get? 8 →
      shortenHash data = (hashT, data.take 2 ++ [data.getD 3 ' ', data.getD 5 ' ', data.getD 7 ' '])) ∧
    shortenToken defaultOpts .zero hashT "#ffffff".toList = (hashT, "#fff".toList) ∧
    shortenToken defaultOpts .zero hashT "#FF0000FF".toList = (identT, "red".toList) := by
  refine ⟨?_, ?_, ?_, ?_, ?_, ?_, by decide, by decide⟩
  · simp [shortenToken]
  · intro h9 h7 h8
    have h78 : data.get? 7 = data.get? 8 := by rw [h7, h8]
    simp_all [shortenHash, List.length_take, List.getElem?_take]
  · intro h9 h7 h8
    have h78 : data.get? 7 = data.get? 8 := by rw [h7, h8]
    simp_all [shortenHash, ShortenColorHex]
  · intro h7 hsome
    simp_all [shortenHash]
  · intro h7 hnone h12 h34 h56
    simp_all [shortenHash]
  · intro h9 h7f h70 hnone h12 h34 h56 h78
    simp_all [shortenHash]

/-- Witness for C3: the redundant ff alpha of #ff0000ff is dropped and
the named form red is preferred. -/
theorem C3_hash_shorten_witness :
    shortenHash "#ff0000ff".toList = (identT, "red".toList) := by
  have h := (C3_hash_shorten .zero defaultOpts "#ff0000ff".toList []).2.1
    (by decide) (by decide) (by decide)
  exact h.trans (by decide)

/-- C4: css.go computes the lowered copy of an identifier token but
discards it, so the uppercase identifier WHITE is neither lowercased
nor rewritten to a hash color, while the lowercase white is rewritten
to the table's hex value; the third conjunct shows the discarded
lowered copy. -/
theorem C4_ident_lower_discarded :
    shortenToken defaultOpts .zero identT "WHITE".toList = (identT, "WHITE".toList) ∧
    shortenToken defaultOpts .zero identT "white".toList = (hashT, "#fff".toList) ∧
    toLower "WHITE".toList = "white".toList := by decide

/-- C5 (amended): segmentation sets simple to false as soon as a
top-level block delimiter appears outside a function call, and as soon
as two value atoms occur back-to-back without an intervening separator;
a separator token never rejects, regardless of what precedes it, and a
rejected declaration is emitted verbatim (original component bytes). -/
theorem C5_segmentation (fuel : ℕ) (comp : CToken) (rest components : List CToken)
    (prevSep : Bool) (o : Opts) (property : List Char) :
    (isBlockDelim comp.tt = true → segmentF (fuel + 1) (comp :: rest) prevSep = none) ∧
    (isSepComp comp = false → segmentF (fuel + 1) (comp :: rest) false = none) ∧
    (isSepComp comp = true →
      (segmentF (fuel + 1) (comp :: rest) prevSep).isSome =
        (segmentF fuel rest true).isSome) ∧
    (segmentF components.length components true = none →
      components ≠ [] →
      hasImportantSuffix components = false →
      ¬(toHash property = .filter ∧ components.length = 11) →
      minifyDeclaration o property components = concatData components) := by
  refine ⟨?_, ?_, ?_, ?_⟩
  · intro hb
    simp [segmentF, hb]
  · intro hs
    rcases comp with ⟨tt, d⟩
    cases tt <;> simp_all [segmentF, isSepComp, isBlockDelim, funcSpan]
  · intro hs
    have hnb : isBlockDelim comp.tt = false := by
      rcases comp with ⟨tt, d⟩
      cases tt <;> simp_all [isSepComp, isBlockDelim]
    simp only [segmentF, hnb, hs]
    cases h : segmentF fuel rest true <;> simp [h]
  · intro hseg hne himp hfil
    unfold minifyDeclaration
    rw [if_neg hne]
    simp only [himp, Bool.false_eq_true, if_false]
    unfold minifyDeclBody
    rw [hseg]
    rw [if_neg hfil]
    simp

/-- Witness for C5: a left-brace component rejects immediately. -/
theorem C5_segmentation_witness :
    segmentF 1 [⟨leftBraceT, [Char.ofNat 123]⟩] true = none :=
  (C5_segmentation 0 ⟨leftBraceT, [Char.ofNat 123]⟩ [] [] true defaultOpts []).1
    (by decide)

/-- Counterexample for C5: two consecutive comma separators do not
reject; margin:1.50px,, stays simple and its dimension token is
shortened, instead of the verbatim emission the claim requires. -/
theorem C5_counterexample :
    ¬segmentF 3 [⟨dimensionT, "1.50px".toList⟩, ⟨commaT, [',']⟩, ⟨commaT, [',']⟩] true =
      none ∧
    minifyDeclaration defaultOpts "margin".toList
      [⟨dimensionT, "1.50px".toList⟩, ⟨commaT, [',']⟩, ⟨commaT, [',']⟩] =
      "1.5px,,".toList ∧
    ¬"1.5px,,".toList =
      concatData [⟨dimensionT, "1.50px".toList⟩, ⟨commaT, [',']⟩, ⟨commaT, [',']⟩] := by
  decide

/-- Stripping the important flag only changes the appended suffix. -/
theorem minifyDeclBody_true_eq (o : Opts) (p : Hash) (cs : List CToken) :
    minifyDeclBody o p cs true = minifyDeclBody o p cs false ++ "!important".toList := by
  unfold minifyDeclBody
  simp

/-- C6: A declaration whose component list ends with a ! delimiter
followed by an identifier hashing to important emits exactly the value
processing of the remaining prefix (with no important flag) followed by
the marker, on both the simple and the verbatim path; the reappended
marker is byte-identical to the input marker tokens. -/
theorem C6_important_marker (o : Opts) (property : List Char) (pre : List CToken)
    (bang imp : CToken)
    (hbang : bang.tt = delimT) (hdata : bang.data = ['!'])
    (himpT : imp.tt = identT) (himp : toHash imp.data = .important) :
    minifyDeclaration o property (pre ++ [bang, imp]) =
      minifyDeclBody o (toHash property) pre false ++ "!important".toList ∧
    bang.data ++ imp.data = "!important".toList := by
  have hid : imp.data = "important".toList := toHash_eq_important.mp himp
  constructor
  · rcases pre with _ | ⟨p0, pre'⟩
    · rcases bang with ⟨bt, bd⟩
      rcases imp with ⟨it, idt⟩
      simp only at hbang hdata himpT hid
      subst hbang hdata himpT hid
      simp [minifyDeclaration, minifyDeclBody, hasImportantSuffix, segmentF,
        isSepComp, isBlockDelim, concatData, serializeValues, toHash, keywordTable]
    · have hlen : ((p0 :: pre') ++ [bang, imp]).length = pre'.length + 3 := by simp
      have hgb : ((p0 :: pre') ++ [bang, imp]).getD
          (((p0 :: pre') ++ [bang, imp]).length - 2) dummyC = bang := by
        rw [hlen]
        simp [List.getD]
        rw [List.getElem_append_right (le_refl _)]
        simp
      have hgi : ((p0 :: pre') ++ [bang, imp]).getD
          (((p0 :: pre') ++ [bang, imp]).length - 1) dummyC = imp := by
        rw [hlen]
        simp [List.getD]
        rw [List.getElem_append_right (by omega)]
        have h1 : pre'.length + 1 - pre'.length = 1 := by omega
        simp [h1]
      have hsuf : hasImportantSuffix ((p0 :: pre') ++ [bang, imp]) = true := by
        unfold hasImportantSuffix
        rw [hgb, hgi]
        simp [hlen, hbang, hdata, himp]
      have htake : ((p0 :: pre') ++ [bang, imp]).take
          (((p0 :: pre') ++ [bang, imp]).length - 2) = p0 :: pre' := by
        rw [hlen]
        simp [List.take_append]
      unfold minifyDeclaration
      rw [if_neg (by simp)]
      rw [hsuf]
      simp only [if_true]
      rw [htake, minifyDeclBody_true_eq]
  · rw [hdata, hid]
    decide

/-- Witness for C6: color:red !important strips the marker, processes
red alone and reappends the marker verbatim. -/
theorem C6_important_marker_witness :
    minifyDeclaration defaultOpts "color".toList
      [⟨identT, "red".toList⟩, ⟨whitespaceT, [' ']⟩, ⟨delimT, ['!']⟩,
       ⟨identT, "important".toList⟩] = "red!important".toList := by
  have h := (C6_important_marker defaultOpts "color".toList
    [⟨identT, "red".toList⟩, ⟨whitespaceT, [' ']⟩] ⟨delimT, ['!']⟩
    ⟨identT, "important".toList⟩ rfl rfl rfl (by decide)).1
  exact h.trans (by decide)

/-- C7 (amended): The grammar loop recovers only from the parser message
"unexpected token in declaration": the offending declaration's raw
bytes and its recovered value tokens are re-emitted and processing
resumes, except that a trailing semicolon token is deferred through the
pending-separator flag instead of being written immediately; every
other parser error aborts the loop, and Minify surfaces it to the
caller unless it is end-of-input, which yields success with the bytes
produced so far. -/
theorem C7_error_policy (o : Opts) (e : PError) (data : List Char)
    (vals : List CToken) (rest events : List GEvent) (q : Bool) :
    (minifyGrammar o (.errorG (.parseErr unexpectedTokenMsg) data vals :: rest) q =
      ((if q then [';'] else []) ++ data ++
        concatData
          (if vals ≠ [] ∧ (vals.getLast?.map CToken.tt) = some semicolonT then
            vals.dropLast
          else vals) ++
        (minifyGrammar o rest
          (if vals ≠ [] ∧ (vals.getLast?.map CToken.tt) = some semicolonT then true
          else q)).1,
        (minifyGrammar o rest
          (if vals ≠ [] ∧ (vals.getLast?.map CToken.tt) = some semicolonT then true
          else q)).2)) ∧
    (e ≠ .parseErr unexpectedTokenMsg →
      minifyGrammar o (.errorG e data vals :: rest) q = ([], some e)) ∧
    ((minifyGrammar o events false).2 = some e → e ≠ .eof →
      Minify o events = .error e) ∧
    ((minifyGrammar o events false).2 = some .eof →
      Minify o events = .ok (minifyGrammar o events false).1) := by
  refine ⟨?_, ?_, ?_, ?_⟩
  · simp [minifyGrammar]
  · intro hne
    simp [minifyGrammar, hne]
  · intro h hne
    simp [Minify, h, hne]
  · intro h
    simp [Minify, h]

/-- Witness for C7: a fatal parser error is surfaced, end-of-input is
success. -/
theorem C7_error_policy_witness :
    Minify defaultOpts [.errorG (.parseErr "x".toList) [] []] =
      .error (.parseErr "x".toList) ∧
    Minify defaultOpts [.errorG .eof [] []] = .ok [] := by
  constructor
  · exact (C7_error_policy defaultOpts (.parseErr "x".toList) [] [] []
      [.errorG (.parseErr "x".toList) [] []] false).2.2.1 (by decide) (by decide)
  · exact (C7_error_policy defaultOpts .eof [] [] []
      [.errorG .eof [] []] false).2.2.2 (by decide)

/-- Counterexample for C7: a recovered declaration whose value tokens end
in a semicolon, followed by a ruleset close, loses the semicolon — the
recovered tokens are not all emitted unmodified. -/
theorem C7_counterexample :
    Minify defaultOpts
      [.errorG (.parseErr unexpectedTokenMsg) "b b:1".toList [⟨semicolonT, [';']⟩],
       .endRuleset, .errorG .eof [] []] = .ok ("b b:1".toList ++ [Char.ofNat 125]) ∧
    ¬(';' ∈ "b b:1".toList ++ [Char.ofNat 125]) := by decide

/-- C9 (amended): the hue argument of an hsl/hsla value is wrapped only
from above — repeatedly reduced by 360 while above 360, landing on a
congruent value at most 360 — while a hue not above 360, in particular
any negative hue, is passed to the conversion unwrapped; saturation and
lightness are clamped into 0–100; end to end, hsl(420,20%,50%) emits
the same bytes as hsl(60,20%,50%). -/
theorem C9_hue_wrap (h d : Frac) (hp : h.pos) (hd : d.pos) :
    ((⟨360, 1⟩ : Frac).blt h = false → wrap360 h = h) ∧
    (h.num < 0 → wrap360 h = h) ∧
    ((⟨360, 1⟩ : Frac).blt h = true →
      ∃ k : ℕ, (wrap360 h).q = h.q - 360 * k ∧ (wrap360 h).q ≤ 360) ∧
    (clamp0to100 d).q = max 0 (min 100 d.q) ∧
    minifyFunction defaultOpts
      [⟨functionT, "hsl(".toList⟩, ⟨numberT, "420".toList⟩, ⟨commaT, [',']⟩,
       ⟨percentageT, "20%".toList⟩, ⟨commaT, [',']⟩, ⟨percentageT, "50%".toList⟩,
       ⟨rightParenthesisT, [')']⟩] =
      minifyFunction defaultOpts
        [⟨functionT, "hsl(".toList⟩, ⟨numberT, "60".toList⟩, ⟨commaT, [',']⟩,
         ⟨percentageT, "20%".toList⟩, ⟨commaT, [',']⟩, ⟨percentageT, "50%".toList⟩,
         ⟨rightParenthesisT, [')']⟩] := by
  refine ⟨(wrap360_spec h hp).1, ?_, (wrap360_spec h hp).2, clamp0to100_q d hd,
    by decide⟩
  intro hneg
  apply (wrap360_spec h hp).1
  unfold Frac.blt
  simp only [decide_eq_false_iff_not]
  push_neg
  have hdp : (0 : ℤ) < h.den := hp
  nlinarith

/-- Witness for C9: the negative hue −120 is passed through unwrapped
and an out-of-range saturation 150 clamps to 100. -/
theorem C9_hue_wrap_witness :
    wrap360 ⟨-120, 1⟩ = ⟨-120, 1⟩ ∧
    (clamp0to100 ⟨150, 1⟩).q = max 0 (min 100 (Frac.q ⟨150, 1⟩)) := by
  constructor
  · exact (C9_hue_wrap ⟨-120, 1⟩ ⟨150, 1⟩ (by norm_num [Frac.pos])
      (by norm_num [Frac.pos])).2.1 (by decide)
  · exact (C9_hue_wrap ⟨-120, 1⟩ ⟨150, 1⟩ (by norm_num [Frac.pos])
      (by norm_num [Frac.pos])).2.2.2.1

/-- Counterexample for C9: the hue −300 is congruent to 60 modulo 360,
but hsl(-300,20%,50%) emits #993 while hsl(60,20%,50%) emits #996 —
negative hues are not wrapped. -/
theorem C9_counterexample :
    minifyFunction defaultOpts
      [⟨functionT, "hsl(".toList⟩, ⟨numberT, "-300".toList⟩, ⟨commaT, [',']⟩,
       ⟨percentageT, "20%".toList⟩, ⟨commaT, [',']⟩, ⟨percentageT, "50%".toList⟩,
       ⟨rightParenthesisT, [')']⟩] = "#993".toList ∧
    minifyFunction defaultOpts
      [⟨functionT, "hsl(".toList⟩, ⟨numberT, "60".toList⟩, ⟨commaT, [',']⟩,
       ⟨percentageT, "20%".toList⟩, ⟨commaT, [',']⟩, ⟨percentageT, "50%".toList⟩,
       ⟨rightParenthesisT, [')']⟩] = "#996".toList ∧
    ((-300 : Int) - 60) % 360 = 0 := by decide

/-- Once the validity flag is false it stays false. -/
theorem rgbArgsScanAux_sticky_false (args : List CToken) :
    ∀ (i : ℕ) (acc : List ℕ), (rgbArgsScanAux args i (false, acc)).1 = false := by
  induction args with
  | nil => intro i acc; simp [rgbArgsScanAux]
  | cons a rest ih =>
    intro i acc
    simp only [rgbArgsScanAux]
    split_ifs <;> exact ih (i + 1) _

/-- A whitespace argument sitting at scan position 5 makes the scan
invalid. -/
theorem rgbArgsScanAux_ws5 (v : CToken) (hws : v.tt = whitespaceT) :
    ∀ (args : List CToken) (i : ℕ) (acc : Bool × List ℕ), i ≤ 5 →
      args.get? (5 - i) = some v → (rgbArgsScanAux args i acc).1 = false := by
  intro args
  induction args with
  | nil => intro i acc h5 hget; simp at hget
  | cons a rest ih =>
    intro i acc h5 hget
    by_cases hi : i = 5
    · subst hi
      simp only [Nat.sub_self, List.get?_cons_zero, Option.some.injEq] at hget
      have hwa : a.tt = whitespaceT := by rw [hget]; exact hws
      have hsep : isSepAt 5 a = false := by simp [isSepAt, hwa]
      simp only [rgbArgsScanAux]
      split_ifs with h1 h2 <;>
        first
          | exact rgbArgsScanAux_sticky_false rest _ _
          | exact absurd (Or.inr ⟨trivial, by simp [hsep]⟩) h1
          | exact absurd (Or.inr ⟨trivial, by simp [hsep]⟩) h2
    · have hlt : i < 5 := lt_of_le_of_ne h5 hi
      have hget2 : rest.get? (5 - (i + 1)) = some v := by
        have h51 : 5 - i = (5 - (i + 1)) + 1 := by omega
        rw [h51] at hget
        simpa using hget
      simp only [rgbArgsScanAux]
      exact ih (i + 1) _ (by omega) hget2

/-- C10 (amended): the separator before a 4th argument is accepted only
as a comma or slash delimiter — a whitespace token at scan position 5
fails the strict alternation and the whole function is re-emitted
byte-for-byte with no argument shortening at all — while whitespace is
accepted at every earlier separator position; rgb(0 0 0) with
whitespace separators still evaluates to a hex color. -/
theorem C10_alpha_separator (o : Opts) (args : List CToken) (v : CToken)
    (values : List CToken) (i : ℕ) :
    (args.get? 5 = some v → v.tt = whitespaceT → (rgbArgsScan args).1 = false) ∧
    (i % 2 = 1 → i ≠ 5 → v.tt = whitespaceT → isSepAt i v = true) ∧
    (v.tt = commaT → isSepAt 5 v = true) ∧
    (v.tt = delimT → v.data.head? = some '/' → isSepAt 5 v = true) ∧
    (v.tt = whitespaceT → isSepAt 5 v = false) ∧
    (values.length > 2 →
      (toHash ((values.headD dummyC).data.dropLast) = .rgb ∨
        toHash ((values.headD dummyC).data.dropLast) = .rgba ∨
        toHash ((values.headD dummyC).data.dropLast) = .hsl ∨
        toHash ((values.headD dummyC).data.dropLast) = .hsla) →
      (rgbArgsScan ((values.drop 1).take (values.length - 2))).1 = false →
      minifyFunction o values = concatData values) ∧
    minifyFunction defaultOpts
      [⟨functionT, "rgb(".toList⟩, ⟨numberT, ['0']⟩, ⟨whitespaceT, [' ']⟩,
       ⟨numberT, ['0']⟩, ⟨whitespaceT, [' ']⟩, ⟨numberT, ['0']⟩,
       ⟨rightParenthesisT, [')']⟩] = "#000".toList := by
  refine ⟨?_, ?_, ?_, ?_, ?_, ?_, by decide⟩
  · intro hget hws
    exact rgbArgsScanAux_ws5 v hws args 0 (true, []) (by omega) (by simpa using hget)
  · intro hodd hne hws
    simp [isSepAt, hws, hne]
  · intro hc
    simp [isSepAt, hc]
  · intro hd hsl
    simp [isSepAt, hd, hsl]
  · intro hws
    simp [isSepAt, hws]
  · intro hn hf hv
    rw [List.drop_one] at hv
    simp only [minifyFunction]
    rw [if_pos hn, if_pos hf]
    simp [hv]

/-- Witness for C10: rgb(0 0 0 0.50) is re-emitted verbatim, the
unshortened 0.50 included. -/
theorem C10_alpha_separator_witness :
    minifyFunction defaultOpts
      [⟨functionT, "rgb(".toList⟩, ⟨numberT, ['0']⟩, ⟨whitespaceT, [' ']⟩,
       ⟨numberT, ['0']⟩, ⟨whitespaceT, [' ']⟩, ⟨numberT, ['0']⟩,
       ⟨whitespaceT, [' ']⟩, ⟨numberT, "0.50".toList⟩,
       ⟨rightParenthesisT, [')']⟩] = "rgb(0 0 0 0.50)".toList := by
  have h := (C10_alpha_separator defaultOpts
    [⟨numberT, ['0']⟩, ⟨whitespaceT, [' ']⟩, ⟨numberT, ['0']⟩, ⟨whitespaceT, [' ']⟩,
     ⟨numberT, ['0']⟩, ⟨whitespaceT, [' ']⟩, ⟨numberT, "0.50".toList⟩]
    ⟨whitespaceT, [' ']⟩
    [⟨functionT, "rgb(".toList⟩, ⟨numberT, ['0']⟩, ⟨whitespaceT, [' ']⟩,
     ⟨numberT, ['0']⟩, ⟨whitespaceT, [' ']⟩, ⟨numberT, ['0']⟩,
     ⟨whitespaceT, [' ']⟩, ⟨numberT, "0.50".toList⟩,
     ⟨rightParenthesisT, [')']⟩] 1).2.2.2.2.2.1
    (by decide) (by decide) (by decide)
  exact h.trans (by decide)

/-- Counterexample for C10: the verbatim re-emission applies no per-token
argument shortening — the alpha bytes 0.50 stay 0.50 even though the
token shortener would render them as .5. -/
theorem C10_counterexample :
    minifyFunction defaultOpts
      [⟨functionT, "rgb(".toList⟩, ⟨numberT, ['0']⟩, ⟨whitespaceT, [' ']⟩,
       ⟨numberT, ['0']⟩, ⟨whitespaceT, [' ']⟩, ⟨numberT, ['0']⟩,
       ⟨whitespaceT, [' ']⟩, ⟨numberT, "0.50".toList⟩,
       ⟨rightParenthesisT, [')']⟩] = "rgb(0 0 0 0.50)".toList ∧
    minifyNumber "0.50".toList = ".5".toList ∧
    ¬"rgb(0 0 0 0.50)".toList = "rgb(0 0 0 .5)".toList := by decide

end CSSMin
